import Mathlib

/-!
Verification of the helx-ldap declarative directory reconciliation scripts.

The definitions below are a shallow embedding of the Python sources:
  scripts/apply_ldifs.py       (process_ldif_file, process_modify, process_delete,
                                attribute_type_exists, object_class_exists, main)
  scripts/apply_ldif_files.py  (apply_ldif_directory_bottom_up)
  scripts/delete_ldap_dn.py    (delete_ldap_user)
  scripts/set_ldap_users.py    (create_ldap_user)

Directory responses (result codes, descriptions, search outcomes) are
abstracted as parameters, since they come from the live LDAP server; all
decision logic of the scripts is translated faithfully.
-/

namespace HelxLdap

/-- A parsed LDIF entry, as produced by ldif3.LDIFParser and decoded to
strings: a mapping from attribute name to the list of its values.  Python
uses a dict with unique keys in insertion order; we model it as an
association list. -/
abbrev Entry := List (String × List String)

/-- Python `entry[k]` / `entry.get(k, [])`: value list of the first binding
of key `k`.  In the scripts every lookup is on a key known to be present,
so the `[]` default is never observable there. -/
def getAttr (e : Entry) (k : String) : List String :=
  match e.find? (fun p => p.1 == k) with
  | some p => p.2
  | none => []

/-- Keys of the entry dict, in insertion order (Python `list(entry.keys())`). -/
def entryKeys (e : Entry) : List String := e.map Prod.fst

/-- The ldap3 modify operation constants MODIFY_ADD / MODIFY_DELETE /
MODIFY_REPLACE. -/
inductive LdapMod where
  | modAdd
  | modDelete
  | modReplace
deriving Repr, DecidableEq

/-- The dict lookup `{'add': MODIFY_ADD, 'delete': MODIFY_DELETE,
'replace': MODIFY_REPLACE}[mod_op]` in process_modify.  `mod_op` is always
one of the three keys there. -/
def toLdapMod (s : String) : LdapMod :=
  if s == "add" then .modAdd
  else if s == "delete" then .modDelete
  else .modReplace

/-- One element of process_modify's `modlist`: `(ldap_op, attr_name, values)`. -/
structure ModEntry where
  op : LdapMod
  attrName : String
  vals : List String
deriving Repr, DecidableEq

/-- The schema-existence dispatch in process_modify lines 189-193:
`exists` is False unless the attribute is olcAttributeTypes or
olcObjectClasses, in which case the corresponding existence check runs on
the definition string.  `checkA` and `checkO` abstract the outcomes of
attribute_type_exists and object_class_exists on the shared connection. -/
def schemaExists (checkA checkO : String → Bool) (attrName definition : String) : Bool :=
  if attrName == "olcAttributeTypes" then checkA definition
  else if attrName == "olcObjectClasses" then checkO definition
  else false

/-- Outer-loop dispatch of one key in process_modify: a key in
`['add', 'delete', 'replace']` opens an operation block whose expected
attribute names are that key's value list; a `-` separator or an
unexpected key is consumed without opening a block. -/
def dispatchOuter (entry : Entry) (k : String) : Option (String × List String) :=
  if k == "add" || k == "delete" || k == "replace" then some (k, getAttr entry k)
  else none

/-- The `while idx < len(keys)` scanning loop of process_modify
(lines 171-217), producing `modlist`.  The state is `none` between
operation blocks and `some (mod_op, pending_attrs)` inside a block; note
that `mod_op` is a mutable Python variable, so a downgrade from add to
replace persists for the remaining attributes of the same block.  The
`none` result models the IndexError raised by `values[0]` on an empty
value list (which propagates out of process_modify).  A mismatching key
breaks the inner loop without being consumed and is then re-examined by
the outer loop; since a `-` key is consumed by both the post-block check
and the outer loop, every head key is consumed in one step. -/
def scanKeys (checkA checkO : String → Bool) (dn : String) (entry : Entry)
    (enableUpdate : Bool) : Option (String × List String) → List String →
    Option (List ModEntry)
  | _, [] => some []
  | some (modOp, a :: as), k :: ks =>
    if k == a then
      let values := getAttr entry k
      if modOp == "add" && dn == "cn=schema,cn=config" then
        match values with
        | [] => none
        | definition :: _ =>
          if schemaExists checkA checkO a definition then
            if enableUpdate then
              match scanKeys checkA checkO dn entry enableUpdate (some ("replace", as)) ks with
              | none => none
              | some ms => some (⟨.modReplace, a, values⟩ :: ms)
            else
              scanKeys checkA checkO dn entry enableUpdate (some (modOp, as)) ks
          else
            match scanKeys checkA checkO dn entry enableUpdate (some (modOp, as)) ks with
            | none => none
            | some ms => some (⟨toLdapMod modOp, a, values⟩ :: ms)
      else
        match scanKeys checkA checkO dn entry enableUpdate (some (modOp, as)) ks with
        | none => none
        | some ms => some (⟨toLdapMod modOp, a, values⟩ :: ms)
    else
      scanKeys checkA checkO dn entry enableUpdate (dispatchOuter entry k) ks
  | some (_, []), k :: ks =>
    scanKeys checkA checkO dn entry enableUpdate (dispatchOuter entry k) ks
  | none, k :: ks =>
    scanKeys checkA checkO dn entry enableUpdate (dispatchOuter entry k) ks

/-- The `modlist` computed by process_modify for a given dn, entry (with
`changetype` already popped) and update flag. -/
def processModifyModlist (checkA checkO : String → Bool) (dn : String)
    (entry : Entry) (enableUpdate : Bool) : Option (List ModEntry) :=
  scanKeys checkA checkO dn entry enableUpdate none (entryKeys entry)

/-- Grouping of `modlist` into the `changes` dict (process_modify lines
219-223): entries grouped by attribute name, preserving first-seen
attribute order and per-attribute operation order. -/
def buildChanges (ms : List ModEntry) : List (String × List (LdapMod × List String)) :=
  ms.foldl (fun acc m =>
    if acc.any (fun p => p.1 == m.attrName) then
      acc.map (fun p => if p.1 == m.attrName then (p.1, p.2 ++ [(m.op, m.vals)]) else p)
    else acc ++ [(m.attrName, [(m.op, m.vals)])]) []

/-- The batched changes process_modify passes to conn.modify, or `some []`
when no request is issued at all (the `No modifications to apply` branch);
`none` models the IndexError escape. -/
def processModifyChanges (checkA checkO : String → Bool) (dn : String)
    (entry : Entry) (enableUpdate : Bool) :
    Option (List (String × List (LdapMod × List String))) :=
  (processModifyModlist checkA checkO dn entry enableUpdate).map buildChanges

/-! ### Result-code interpretation for a batched modify (apply_ldifs.py 225-234) -/

/-- Outcome classification printed by process_modify after conn.modify. -/
inductive ModifyOutcome where
  | success
  | benignSkip
  | failure (desc msg : String)
  | errorCaught (msg : String)
deriving Repr, DecidableEq

/-- Interpretation of conn.result after a batched modify (process_modify
lines 227-232): 0 is success, 20 (attributeOrValueExists) is a logged
benign skip, anything else is a logged failure carrying the server
description and message. -/
def interpretModifyResult (code : Nat) (desc msg : String) : ModifyOutcome :=
  if code = 0 then .success
  else if code = 20 then .benignSkip
  else .failure desc msg

/-- A directory response to one executed request: either a protocol result
(code, description, message) or a raised exception message. -/
inductive LdapResponse where
  | ok (code : Nat) (desc msg : String)
  | raised (msg : String)
deriving Repr, DecidableEq

/-- The whole execution step for one batched modify: the try/except around
conn.modify catches every exception, so every response maps to an outcome
and control returns to the record loop. -/
def runBatchedModify : LdapResponse → ModifyOutcome
  | .ok code desc msg => interpretModifyResult code desc msg
  | .raised msg => .errorCaught msg

/-- The record stream around executed modifies: each executed request is
classified independently and the loop always advances to the next record
(no exception escapes runBatchedModify, no break). -/
def processModifyStream (rs : List LdapResponse) : List ModifyOutcome :=
  rs.map runBatchedModify

/-! ### The two delete paths -/

/-- Outcome printed by delete_ldap_dn.py delete_ldap_user (lines 51-57). -/
inductive DeleteScriptOutcome where
  | deleted
  | noSuchEntryInfo
  | errorReported (desc : String)
deriving Repr, DecidableEq

/-- delete_ldap_user: `conn.delete(dn)` returns True exactly on result
code 0; otherwise the description is inspected and `noSuchObject` is
reported as the informational `No such entry`, anything else as an error. -/
def delete_ldap_user_outcome (code : Nat) (desc : String) : DeleteScriptOutcome :=
  if code = 0 then .deleted
  else if desc == "noSuchObject" then .noSuchEntryInfo
  else .errorReported desc

/-- Outcome printed by apply_ldifs.py process_delete (lines 126-130). -/
inductive ProcessDeleteOutcome where
  | success
  | failureReported (desc msg : String)
deriving Repr, DecidableEq

/-- process_delete: result code 0 prints success, any other result code
prints `Failed to delete entry` with the server description and message
(there is no special case for a missing entry on this path). -/
def process_delete_outcome (code : Nat) (desc msg : String) : ProcessDeleteOutcome :=
  if code = 0 then .success
  else .failureReported desc msg

/-- The record stream around deletes in process_ldif_file: each delete is
classified independently and the loop advances (the try/except inside
process_delete catches exceptions from conn.delete). -/
def processDeleteStream (rs : List (Nat × String × String)) : List ProcessDeleteOutcome :=
  rs.map (fun r => process_delete_outcome r.1 r.2.1 r.2.2)

/-! ### Record dispatch in process_ldif_file (apply_ldifs.py 54-93) -/

/-- The action taken for one parsed (dn, entry) record. -/
inductive RecordAction where
  | skipped
  | addAction (dn : String) (entry : Entry)
  | modifyAction (dn : String) (entry : Entry)
  | deleteAction (dn : String)
  | unsupported (dn : String) (changetype : String)
deriving Repr, DecidableEq

/-- Dispatch of one parsed record in process_ldif_file: a record whose dn
is None is skipped with `continue` before anything is printed or issued;
otherwise the changetype (popped from the entry; the parser never yields
an empty value list, so `values[0]` is modelled as headD) selects modify,
add, delete or the unsupported-changetype report, and a record without a
changetype is treated as an add. -/
def recordAction (dnOpt : Option String) (entry : Entry) : RecordAction :=
  match dnOpt with
  | none => .skipped
  | some dn =>
    match entry.find? (fun p => p.1 == "changetype") with
    | some p =>
      let rest := entry.filter (fun q => !(q.1 == "changetype"))
      let ct := p.2.headD ""
      if ct == "modify" then .modifyAction dn rest
      else if ct == "add" then .addAction dn rest
      else if ct == "delete" then .deleteAction dn
      else .unsupported dn ct
    | none => .addAction dn entry

/-! ### Schema existence checks (apply_ldifs.py 136-160) and their effects -/

/-- Python `\s` a character class membership for the whitespace characters
re treats as spaces in ASCII text. -/
def isSpaceChar (c : Char) : Bool :=
  c == ' ' || c == '\t' || c == '\n' || c == '\r' || c == '\x0b' || c == '\x0c'

/-- Membership in the regex character class `[0-9.]`. -/
def isOidChar (c : Char) : Bool := c.isDigit || c == '.'

/-- After a literal `(`, the regex `\s*([0-9.]+)` consumes maximal
whitespace then captures a maximal nonempty run of digits and dots;
failure if that run is empty. -/
def matchAfterParen (cs : List Char) : Option (List Char) :=
  let rest := cs.dropWhile isSpaceChar
  let tok := rest.takeWhile isOidChar
  if tok.isEmpty then none else some tok

/-- `re.search` for the pattern `\(\s*([0-9.]+)`: the earliest position
at which the whole pattern matches wins; positions are tried left to
right and the pattern starts with a literal `(`. -/
def searchOid : List Char → Option (List Char)
  | [] => none
  | c :: cs =>
    if c == '(' then
      match matchAfterParen cs with
      | some tok => some tok
      | none => searchOid cs
    else searchOid cs

/-- The captured group of `re.search` over the definition string, as a
string, or none when the pattern matches nowhere. -/
def extractOid (s : String) : Option String :=
  (searchOid s.data).map (fun cs => String.mk cs)

/-- One operation issued to the directory over the bound session. -/
inductive DirOp where
  | searchOp (base filterStr : String)
  | addOp (dn : String) (attrs : Entry)
  | deleteOp (dn : String)
  | modifyOp (dn : String) (changes : List (String × List (LdapMod × List String)))
deriving Repr, DecidableEq

/-- attribute_type_exists: extract the OID, return False when the regex
does not match (issuing nothing); otherwise search the schema subtree for
the OID as a substring of any olcAttributeTypes value and return whether
entries were found.  `searchFn` abstracts the server response; the second
component is the trace of operations issued to the directory. -/
def attribute_type_exists (searchFn : String → String → Bool)
    (attrDefinition : String) : Bool × List DirOp :=
  match extractOid attrDefinition with
  | none => (false, [])
  | some oid =>
    let filterStr := "(olcAttributeTypes=*" ++ oid ++ "*)"
    (searchFn "cn=schema,cn=config" filterStr,
     [DirOp.searchOp "cn=schema,cn=config" filterStr])

/-- object_class_exists: identical shape to attribute_type_exists with the
olcObjectClasses attribute. -/
def object_class_exists (searchFn : String → String → Bool)
    (objclassDefinition : String) : Bool × List DirOp :=
  match extractOid objclassDefinition with
  | none => (false, [])
  | some oid =>
    let filterStr := "(olcObjectClasses=*" ++ oid ++ "*)"
    (searchFn "cn=schema,cn=config" filterStr,
     [DirOp.searchOp "cn=schema,cn=config" filterStr])

/-- Directory state: dn to attribute set. -/
abbrev DirState := List (String × Entry)

/-- Effect of one modify sub-operation on one attribute value list, per
LDAP semantics: add appends values, replace substitutes them, delete with
values removes them. -/
def applyAttrChange (old : List String) : LdapMod × List String → List String
  | (.modAdd, vs) => old ++ vs
  | (.modReplace, vs) => vs
  | (.modDelete, vs) => old.filter (fun x => !(vs.contains x))

/-- Effect of a batched change set on one entry. -/
def applyEntryChanges (e : Entry) (chs : List (String × List (LdapMod × List String))) : Entry :=
  chs.foldl (fun acc ch =>
    match acc.find? (fun p => p.1 == ch.1) with
    | some p =>
      acc.map (fun q => if q.1 == ch.1 then (q.1, ch.2.foldl applyAttrChange p.2) else q)
    | none => acc ++ [(ch.1, ch.2.foldl applyAttrChange [])]) e

/-- Effect of one issued operation on the directory state: a search reads
only, the three mutations change the state. -/
def applyDirOp (st : DirState) : DirOp → DirState
  | .searchOp _ _ => st
  | .addOp dn attrs => st ++ [(dn, attrs)]
  | .deleteOp dn => st.filter (fun p => !(p.1 == dn))
  | .modifyOp dn chs =>
    st.map (fun p => if p.1 == dn then (p.1, applyEntryChanges p.2 chs) else p)

/-- Effect of a trace of issued operations. -/
def applyDirOps (st : DirState) (ops : List DirOp) : DirState :=
  ops.foldl applyDirOp st

/-- Whether an issued operation is a read-only search. -/
def isSearchOp : DirOp → Bool
  | .searchOp _ _ => true
  | _ => false

/-! ### Bottom-up directory walk (apply_ldifs.py main, apply_ldif_files.py) -/

/-- A directory tree on disk: a named directory with its plain files and
subdirectories. -/
inductive FsTree where
  | dir (name : String) (files : List String) (subs : List FsTree)

/-- os.path.join for our purposes. -/
def joinPath (p n : String) : String :=
  if p == "" then n else p ++ "/" ++ n

mutual
/-- os.walk(root, topdown=False): every subdirectory tree is yielded in
full before the directory itself; siblings in listing order. -/
def walkBottomUp (p : String) : FsTree → List (String × List String)
  | .dir n fs subs =>
    walkForest (joinPath p n) subs ++ [(joinPath p n, fs)]

/-- Walk of a list of sibling subdirectories, in order. -/
def walkForest (p : String) : List FsTree → List (String × List String)
  | [] => []
  | t :: ts => walkBottomUp p t ++ walkForest p ts
end

/-- Python str.endswith on text. -/
def strEndsWith (s suffixStr : String) : Bool :=
  suffixStr.data.isSuffixOf s.data

/-- The per-directory processing of main / apply_ldif_directory_bottom_up:
the files of one yielded directory that end in .ldif, joined to the
directory path, in listing order. -/
def ldifFilesOfDir (pr : String × List String) : List String :=
  (pr.2.filter (fun f => strEndsWith f ".ldif")).map (fun f => joinPath pr.1 f)

/-- The full processing order of .ldif files for a tree rooted at path
`p`: the os.walk bottom-up order of directories, each contributing its
.ldif files. -/
def ldifFiles (p : String) (t : FsTree) : List String :=
  (walkBottomUp p t).flatMap ldifFilesOfDir

/-! ### User reconciliation diff (set_ldap_users.py 102-123) -/

/-- A Python attribute value in the `attrs` dict of create_ldap_user:
either a plain string or a list of strings. -/
inductive PyVal where
  | strVal (s : String)
  | listVal (l : List String)
deriving Repr, DecidableEq

/-- Python `set(a) == set(b)` on lists of strings. -/
def listSetEq (a b : List String) : Bool :=
  a.all (fun x => b.contains x) && b.all (fun x => a.contains x)

/-- Whether one desired attribute matches the current directory value per
create_ldap_user: a list value is compared as a set against the existing
value list, a scalar against `existing[0] if existing else the empty
string`. -/
def attrMatches (existing : Entry) (pr : String × PyVal) : Bool :=
  match pr.2 with
  | .listVal l => listSetEq l (getAttr existing pr.1)
  | .strVal s => s == (getAttr existing pr.1).headD ""

/-- One iteration of the comparison loop of create_ldap_user: a
list-valued attribute is appended to the modifications when its set of
values differs from the existing one, a scalar when it differs from the
first existing value (or from the empty string when absent). -/
def diffStep (existing : Entry) (mods : List (String × PyVal)) (pr : String × PyVal) :
    List (String × PyVal) :=
  match pr.2 with
  | .listVal l =>
    if !(listSetEq l (getAttr existing pr.1)) then mods ++ [(pr.1, PyVal.listVal l)]
    else mods
  | .strVal s =>
    if !(s == (getAttr existing pr.1).headD "") then mods ++ [(pr.1, PyVal.strVal s)]
    else mods

/-- The `modifications` dict built by the comparison loop of
create_ldap_user: one MODIFY_REPLACE per attribute whose desired value
differs from the current one, in desired-attribute order. -/
def computeModifications (attrs : List (String × PyVal)) (existing : Entry) :
    List (String × PyVal) :=
  attrs.foldl (diffStep existing) []

/-- What create_ldap_user does for an already-existing user. -/
inductive UserUpdateAction where
  | noUpdates
  | modifyUser (mods : List (String × PyVal))
deriving Repr, DecidableEq

/-- After the comparison loop: an empty modifications dict prints `No
updates necessary` and issues nothing; otherwise one conn.modify with the
modifications is issued. -/
def userUpdateAction (attrs : List (String × PyVal)) (existing : Entry) :
    UserUpdateAction :=
  let mods := computeModifications attrs existing
  if mods.isEmpty then .noUpdates else .modifyUser mods

/-! ### Group membership reconciliation (set_ldap_users.py 130-148) -/

/-- The groups subtree of the directory: group name to its member list. -/
abbrev GroupDir := List (String × List String)

/-- Lookup of a group by name (the scoped BASE search on the group dn). -/
def findGroup (gs : GroupDir) (g : String) : Option (List String) :=
  (gs.find? (fun p => p.1 == g)).map (fun p => p.2)

/-- Boolean membership of a user dn in a group of the state. -/
def memberOf (u : String) (gs : GroupDir) (g : String) : Bool :=
  match findGroup gs g with
  | some m => m.contains u
  | none => false

/-- One iteration of the group loop in create_ldap_user: a missing group
is created with the user as sole member; an existing group gains the user
via MODIFY_ADD only when the user is not already in its member list;
otherwise nothing is issued. -/
def reconcileOneGroup (u : String) (gs : GroupDir) (g : String) : GroupDir :=
  match findGroup gs g with
  | none => gs ++ [(g, [u])]
  | some members =>
    if members.contains u then gs
    else gs.map (fun p => if p.1 == g then (p.1, p.2 ++ [u]) else p)

/-- The whole group loop over the user's declared groups list. -/
def reconcileGroups (u : String) (gs : GroupDir) (names : List String) : GroupDir :=
  names.foldl (reconcileOneGroup u) gs

/-- Spec-side description of one add-operation block against the schema
container, following the words of the amended claim C1: a ModOp whose
embedded identifier already exists is downgraded to Replace in update
mode, or skipped entirely outside update mode; a ModOp whose identifier
does not exist is emitted as an unchanged Add — except that once a
downgrade to Replace has happened in the block, every later ModOp of the
same block is emitted as Replace without an existence check. -/
def amendedBlockSpec (checkA checkO : String → Bool) (upd : Bool)
    (vals : String → List String) : Bool → List String → List ModEntry
  | _, [] => []
  | downgraded, a :: as =>
    if downgraded then
      ⟨.modReplace, a, vals a⟩ :: amendedBlockSpec checkA checkO upd vals true as
    else if schemaExists checkA checkO a ((vals a).headD "") then
      if upd then
        ⟨.modReplace, a, vals a⟩ :: amendedBlockSpec checkA checkO upd vals true as
      else amendedBlockSpec checkA checkO upd vals false as
    else ⟨.modAdd, a, vals a⟩ :: amendedBlockSpec checkA checkO upd vals false as

end HelxLdap


namespace HelxLdap

/-! ## Claim C2: result-code interpretation of executed batched modifies -/

/-- C2: every executed batched modify request is classified exactly three
ways from the directory result code: 0 is success, 20 (attribute or value
already exists) is a benign skip and not an error, and any other non-zero
code is a failure carrying the server description; every response
(including raised exceptions) yields an outcome and the record stream is
processed in full with one outcome per record, with no short-circuit. -/
theorem C2_modify_result_trichotomy :
    (∀ desc msg, interpretModifyResult 0 desc msg = .success)
    ∧ (∀ desc msg, interpretModifyResult 20 desc msg = .benignSkip)
    ∧ (∀ code desc msg, code ≠ 0 → code ≠ 20 →
        interpretModifyResult code desc msg = .failure desc msg)
    ∧ (∀ rs, (processModifyStream rs).length = rs.length)
    ∧ (∀ rs r, r ∈ rs → runBatchedModify r ∈ processModifyStream rs) := by
  refine ⟨fun d m => rfl, fun d m => rfl, fun code d m h0 h20 => ?_, fun rs => ?_, ?_⟩
  · simp [interpretModifyResult, h0, h20]
  · simp [processModifyStream]
  · intro rs r hr
    exact List.mem_map_of_mem runBatchedModify hr

/-- Witness for C2 at concrete inputs: result 49 with a description is
reported as a failure with that description. -/
theorem C2_witness :
    interpretModifyResult 49 "invalidCredentials" "m"
      = .failure "invalidCredentials" "m" :=
  C2_modify_result_trichotomy.2.2.1 49 "invalidCredentials" "m"
    (by decide) (by decide)

/-! ## Claim C3: the two delete paths on a missing entry -/

/-- C3 counterexample: on a delete of a non-existent identifier (result
code 32, description noSuchObject), the change-record delete path of
apply_ldifs.py reports a failure (the Failed-to-delete branch), while the
per-DN script reports the informational No-such-entry outcome; so the
claim that neither path reports a failure is false. -/
theorem C3_counterexample :
    process_delete_outcome 32 "noSuchObject" "no such object"
        = .failureReported "noSuchObject" "no such object"
    ∧ delete_ldap_user_outcome 32 "noSuchObject" = .noSuchEntryInfo := by
  exact ⟨rfl, rfl⟩

/-- C3 amended: deleting a non-existent identifier is reported as the
informational No-such-entry outcome in the per-DN delete script only; the
change-record delete path reports every non-zero result, including
no-such-object, as a failure with the server description; in both paths
every delete response yields an outcome and execution continues to the
next record. -/
theorem C3_delete_paths_amended :
    (∀ code desc, code ≠ 0 → desc = "noSuchObject" →
      delete_ldap_user_outcome code desc = .noSuchEntryInfo)
    ∧ (∀ code desc msg, code ≠ 0 →
      process_delete_outcome code desc msg = .failureReported desc msg)
    ∧ (∀ rs, (processDeleteStream rs).length = rs.length) := by
  refine ⟨fun code desc h0 hdesc => ?_, fun code desc msg h0 => ?_, fun rs => ?_⟩
  · simp [delete_ldap_user_outcome, h0, hdesc]
  · simp [process_delete_outcome, h0]
  · simp [processDeleteStream]

/-- Witness for C3 amended at result code 32. -/
theorem C3_witness :
    delete_ldap_user_outcome 32 "noSuchObject" = .noSuchEntryInfo
    ∧ process_delete_outcome 32 "noSuchObject" "m"
        = .failureReported "noSuchObject" "m" :=
  ⟨C3_delete_paths_amended.1 32 "noSuchObject" (by decide) rfl,
   C3_delete_paths_amended.2.1 32 "noSuchObject" "m" (by decide)⟩

/-! ## Claim C8: records with a null or empty target identifier -/

/-- C8 counterexample: a parsed record whose dn is the empty string (not
None) is not discarded: process_ldif_file dispatches it as a regular add
of the empty identifier, so the claim that null-or-empty identifiers are
discarded silently is false for the empty string. -/
theorem C8_counterexample :
    recordAction (some "") [] = .addAction "" []
    ∧ RecordAction.addAction "" [] ≠ .skipped := by
  exact ⟨rfl, by decide⟩

/-- C8 amended: a parsed record whose dn is None is discarded silently
(no operation, no report), but a record whose dn is any string, the empty
string included, is never discarded: it is dispatched to an add, modify,
delete, or unsupported-changetype report. -/
theorem C8_null_dn_amended :
    (∀ entry, recordAction none entry = .skipped)
    ∧ (∀ dn entry, recordAction (some dn) entry ≠ .skipped) := by
  constructor
  · intro entry
    rfl
  · intro dn entry
    unfold recordAction
    rcases hf : entry.find? (fun p => p.1 == "changetype") with _ | p <;> rw [hf]
    · simp
    · dsimp only
      repeat' split
      all_goals simp

/-- Witness for C8 amended at concrete records. -/
theorem C8_witness :
    recordAction none [("cn", ["x"])] = .skipped
    ∧ recordAction (some "") [] ≠ .skipped :=
  ⟨C8_null_dn_amended.1 [("cn", ["x"])], C8_null_dn_amended.2 "" []⟩

/-! ## Claim C9: resolvers only search -/

/-- C9: the schema existence resolvers issue only search operations, and
replaying their operation traces any number of times leaves any directory
state unchanged: no add, delete, or modify is ever issued by a resolver
call. -/
theorem C9_resolvers_only_search :
    ∀ (f : String → String → Bool) (d : String) (st : DirState) (n : Nat),
      (attribute_type_exists f d).2.all isSearchOp = true
      ∧ (object_class_exists f d).2.all isSearchOp = true
      ∧ applyDirOps st (List.flatten (List.replicate n (attribute_type_exists f d).2)) = st
      ∧ applyDirOps st (List.flatten (List.replicate n (object_class_exists f d).2)) = st := by
  have happly : ∀ (ops : List DirOp), ops.all isSearchOp = true →
      ∀ st : DirState, applyDirOps st ops = st := by
    intro ops hall
    induction ops with
    | nil => intro st; rfl
    | cons op rest ih =>
      intro st
      simp only [List.all_cons, Bool.and_eq_true] at hall
      have hop : applyDirOp st op = st := by
        cases op with
        | searchOp b fl => rfl
        | addOp dn attrs => simp [isSearchOp] at hall
        | deleteOp dn => simp [isSearchOp] at hall
        | modifyOp dn chs => simp [isSearchOp] at hall
      have := ih hall.2 st
      simpa [applyDirOps, hop] using this
  have hrep : ∀ (ops : List DirOp), ops.all isSearchOp = true →
      ∀ (n : Nat) (st : DirState),
        applyDirOps st (List.flatten (List.replicate n ops)) = st := by
    intro ops hall n
    induction n with
    | zero => intro st; rfl
    | succ k ih =>
      intro st
      have hsplit : List.flatten (List.replicate (k + 1) ops)
          = ops ++ List.flatten (List.replicate k ops) := by
        simp [List.replicate_succ]
      rw [hsplit]
      have hfold : applyDirOps st (ops ++ List.flatten (List.replicate k ops))
          = applyDirOps (applyDirOps st ops) (List.flatten (List.replicate k ops)) := by
        simp [applyDirOps, List.foldl_append]
      rw [hfold, happly ops hall st, ih]
  intro f d st n
  have hA : (attribute_type_exists f d).2.all isSearchOp = true := by
    unfold attribute_type_exists
    cases extractOid d <;> simp [isSearchOp]
  have hO : (object_class_exists f d).2.all isSearchOp = true := by
    unfold object_class_exists
    cases extractOid d <;> simp [isSearchOp]
  exact ⟨hA, hO, hrep _ hA n st, hrep _ hO n st⟩

end HelxLdap

namespace HelxLdap

/-! ## Claim C4: OID extraction and the conservative no-match case -/

/-- Structure of a successful regex search: the captured token is a
nonempty run of digits and dots that stands immediately after an opening
parenthesis, separated only by whitespace. -/
theorem searchOid_sound : ∀ (cs tok : List Char), searchOid cs = some tok →
    tok ≠ [] ∧ tok.all isOidChar = true
    ∧ ∃ pre ws suf, cs = pre ++ '(' :: (ws ++ tok ++ suf)
        ∧ ws.all isSpaceChar = true := by
  intro cs
  induction cs with
  | nil => intro tok h; simp [searchOid] at h
  | cons c rest ih =>
    intro tok h
    rw [searchOid] at h
    by_cases hc : c == '('
    · rw [if_pos hc] at h
      rcases hm : matchAfterParen rest with _ | tok0
      · rw [hm] at h
        rcases ih tok h with ⟨hne, hall, pre, ws, suf, heq, hws⟩
        refine ⟨hne, hall, c :: pre, ws, suf, ?_, hws⟩
        simp [heq]
      · rw [hm] at h
        cases h
        simp only [matchAfterParen] at hm
        split at hm
        · exact absurd hm (by simp)
        · rename_i hemp
          rw [Option.some.injEq] at hm
          cases hm
          have hne : (rest.dropWhile isSpaceChar).takeWhile isOidChar ≠ [] := by
            intro hcon
            rw [hcon] at hemp
            simp at hemp
          refine ⟨hne, ?_, [], rest.takeWhile isSpaceChar,
            (rest.dropWhile isSpaceChar).dropWhile isOidChar, ?_, ?_⟩
          · rw [List.all_eq_true]
            intro x hx
            exact List.mem_takeWhile_imp hx
          · have h1 : rest.takeWhile isSpaceChar ++ rest.dropWhile isSpaceChar = rest :=
              List.takeWhile_append_dropWhile isSpaceChar rest
            have h2 : (rest.dropWhile isSpaceChar).takeWhile isOidChar
                ++ (rest.dropWhile isSpaceChar).dropWhile isOidChar
                = rest.dropWhile isSpaceChar :=
              List.takeWhile_append_dropWhile isOidChar (rest.dropWhile isSpaceChar)
            have hcp : c = '(' := by
              simpa using hc
            rw [hcp]
            simp only [List.nil_append, List.cons.injEq, true_and]
            rw [List.append_assoc, h2, h1]
          · rw [List.all_eq_true]
            intro x hx
            exact List.mem_takeWhile_imp hx
    · rw [if_neg hc] at h
      rcases ih tok h with ⟨hne, hall, pre, ws, suf, heq, hws⟩
      refine ⟨hne, hall, c :: pre, ws, suf, ?_, hws⟩
      simp [heq]

/-- C4: for every schema definition string, the existence check extracts
at most one leading dotted-decimal identifier: when the regex finds no
match, both existence checks return false (the definition is treated as
not yet existing and the operation is attempted), and when a token is
extracted it is a single nonempty run of digits and dots standing
immediately after an opening parenthesis, separated only by whitespace. -/
theorem C4_oid_extraction :
    ∀ (f : String → String → Bool) (d : String),
      (extractOid d = none →
        (attribute_type_exists f d).1 = false ∧ (object_class_exists f d).1 = false)
      ∧ (∀ oid, extractOid d = some oid →
          oid.data ≠ [] ∧ oid.data.all isOidChar = true
          ∧ ∃ pre ws suf, d.data = pre ++ '(' :: (ws ++ oid.data ++ suf)
              ∧ ws.all isSpaceChar = true) := by
  intro f d
  constructor
  · intro hnone
    unfold attribute_type_exists object_class_exists
    rw [hnone]
    exact ⟨rfl, rfl⟩
  · intro oid hsome
    unfold extractOid at hsome
    rcases hs : searchOid d.data with _ | tok
    · rw [hs] at hsome
      exact absurd hsome (by simp)
    · rw [hs] at hsome
      rcases searchOid_sound d.data tok hs with ⟨hne, hall, pre, ws, suf, heq, hws⟩
      have hmk : String.mk tok = oid := by
        simpa [Option.map] using hsome
      have hdata : oid.data = tok := by
        rw [← hmk]
      refine ⟨?_, ?_, pre, ws, suf, ?_, hws⟩
      · rw [hdata]; exact hne
      · rw [hdata]; exact hall
      · rw [hdata]; exact heq

/-- Witness for C4 at concrete definition strings: a string without the
pattern yields false from both checks regardless of the server, and a
well-formed definition yields its leading identifier decomposition. -/
theorem C4_witness :
    ((attribute_type_exists (fun _ _ => true) "no oid here").1 = false
      ∧ (object_class_exists (fun _ _ => true) "no oid here").1 = false)
    ∧ (∃ pre ws suf,
        (String.data "( 1.2 NAME )") = pre ++ '(' :: (ws ++ (String.data "1.2") ++ suf)
        ∧ ws.all isSpaceChar = true) :=
  ⟨(C4_oid_extraction (fun _ _ => true) "no oid here").1 (by decide),
   ((C4_oid_extraction (fun _ _ => true) "( 1.2 NAME )").2 "1.2" (by decide)).2.2⟩

end HelxLdap

namespace HelxLdap

/-! ## Claim C6: user reconciliation diff -/

/-- The comparison loop accumulates exactly the desired attributes that
fail the match test, in order. -/
theorem computeModifications_eq_filter :
    ∀ (attrs : List (String × PyVal)) (existing : Entry),
      computeModifications attrs existing
        = attrs.filter (fun pr => !(attrMatches existing pr)) := by
  intro attrs existing
  have haux : ∀ (l : List (String × PyVal)) (acc : List (String × PyVal)),
      l.foldl (diffStep existing) acc
      = acc ++ l.filter (fun pr => !(attrMatches existing pr)) := by
    intro l
    induction l with
    | nil => intro acc; simp
    | cons pr rest ih =>
      intro acc
      rcases pr with ⟨name, val⟩
      rw [List.foldl_cons, List.filter_cons]
      cases val with
      | listVal lv =>
        by_cases hm : listSetEq lv (getAttr existing name)
        · have hstep : diffStep existing acc (name, PyVal.listVal lv) = acc := by
            simp [diffStep, hm]
          have hmatch : (!(attrMatches existing (name, PyVal.listVal lv))) = false := by
            simp [attrMatches, hm]
          rw [hstep, hmatch, ih]
          simp
        · have hstep : diffStep existing acc (name, PyVal.listVal lv)
              = acc ++ [(name, PyVal.listVal lv)] := by
            simp [diffStep, hm]
          have hmatch : (!(attrMatches existing (name, PyVal.listVal lv))) = true := by
            simp [attrMatches, hm]
          rw [hstep, hmatch, ih]
          simp
      | strVal s =>
        by_cases hm : s == (getAttr existing name).headD ""
        · have hstep : diffStep existing acc (name, PyVal.strVal s) = acc := by
            simp [diffStep]
            simpa using hm
          have hmatch : (!(attrMatches existing (name, PyVal.strVal s))) = false := by
            simp [attrMatches]
            simpa using hm
          rw [hstep, hmatch, ih]
          simp
        · have hstep : diffStep existing acc (name, PyVal.strVal s)
              = acc ++ [(name, PyVal.strVal s)] := by
            simp [diffStep]
            simpa using hm
          have hmatch : (!(attrMatches existing (name, PyVal.strVal s))) = true := by
            simp [attrMatches]
            simpa using hm
          rw [hstep, hmatch, ih]
          simp
  rw [computeModifications, haux attrs []]
  simp

/-- C6: when every desired attribute matches the current directory value
(list values compared as sets, scalars against the first current value),
the reconciliation computes no modification and reports that no updates
are necessary; in general exactly the desired attributes whose value
differs appear in the emitted modification. -/
theorem C6_user_diff :
    ∀ (attrs : List (String × PyVal)) (existing : Entry),
      ((∀ pr ∈ attrs, attrMatches existing pr = true) →
        computeModifications attrs existing = []
        ∧ userUpdateAction attrs existing = .noUpdates)
      ∧ (∀ pr, pr ∈ computeModifications attrs existing
          ↔ (pr ∈ attrs ∧ attrMatches existing pr = false)) := by
  intro attrs existing
  constructor
  · intro hall
    have hnil : computeModifications attrs existing = [] := by
      rw [computeModifications_eq_filter]
      rw [List.filter_eq_nil_iff]
      intro pr hpr
      simp [hall pr hpr]
    refine ⟨hnil, ?_⟩
    unfold userUpdateAction
    rw [hnil]
    rfl
  · intro pr
    rw [computeModifications_eq_filter, List.mem_filter]
    simp

/-- Witness for C6: a user whose current attributes equal the desired
ones (list order notwithstanding) yields no modification request. -/
theorem C6_witness :
    computeModifications
      [("cn", .strVal "jdoe"), ("objectClass", .listVal ["top", "person"])]
      [("objectClass", ["person", "top"]), ("cn", ["jdoe"])] = []
    ∧ userUpdateAction
      [("cn", .strVal "jdoe"), ("objectClass", .listVal ["top", "person"])]
      [("objectClass", ["person", "top"]), ("cn", ["jdoe"])] = .noUpdates :=
  (C6_user_diff
    [("cn", .strVal "jdoe"), ("objectClass", .listVal ["top", "person"])]
    [("objectClass", ["person", "top"]), ("cn", ["jdoe"])]).1 (by decide)

end HelxLdap

namespace HelxLdap

/-! ## Claim C7: group membership reconciliation is union-only -/

theorem findGroup_cons (hd : String × List String) (tl : GroupDir) (g : String) :
    findGroup (hd :: tl) g = if hd.1 == g then some hd.2 else findGroup tl g := by
  by_cases h : hd.1 == g <;> simp [findGroup, List.find?_cons, h]

theorem findGroup_append_left : ∀ (gs l : GroupDir) (g : String) (m : List String),
    findGroup gs g = some m → findGroup (gs ++ l) g = some m := by
  intro gs l g m h
  induction gs with
  | nil => simp [findGroup] at h
  | cons hd tl ih =>
    rw [List.cons_append, findGroup_cons]
    rw [findGroup_cons] at h
    by_cases hh : hd.1 == g
    · rw [if_pos hh] at h ⊢; exact h
    · rw [if_neg hh] at h ⊢; exact ih h

theorem findGroup_append_right_none : ∀ (gs l : GroupDir) (g : String),
    findGroup gs g = none → findGroup (gs ++ l) g = findGroup l g := by
  intro gs l g h
  induction gs with
  | nil => simp
  | cons hd tl ih =>
    rw [findGroup_cons] at h
    by_cases hh : hd.1 == g
    · rw [if_pos hh] at h; exact absurd h (by simp)
    · rw [if_neg hh] at h
      rw [List.cons_append, findGroup_cons, if_neg hh]
      exact ih h

theorem findGroup_upd_self : ∀ (gs : GroupDir) (g u : String) (m : List String),
    findGroup gs g = some m →
    findGroup (gs.map (fun p => if p.1 == g then (p.1, p.2 ++ [u]) else p)) g
      = some (m ++ [u]) := by
  intro gs g u m h
  induction gs with
  | nil => simp [findGroup] at h
  | cons hd tl ih =>
    rw [findGroup_cons] at h
    rw [List.map_cons, findGroup_cons]
    by_cases hh : hd.1 == g
    · rw [if_pos hh] at h
      cases h
      simp [hh]
    · rw [if_neg hh] at h
      rw [if_neg hh, if_neg hh]
      exact ih h

theorem findGroup_upd_other : ∀ (gs : GroupDir) (g u gq : String) (m : List String),
    findGroup gs gq = some m →
    ∃ mq, findGroup (gs.map (fun p => if p.1 == g then (p.1, p.2 ++ [u]) else p)) gq
        = some mq ∧ (mq = m ∨ mq = m ++ [u]) := by
  intro gs g u gq m h
  induction gs with
  | nil => simp [findGroup] at h
  | cons hd tl ih =>
    rw [findGroup_cons] at h
    rw [List.map_cons, findGroup_cons]
    by_cases hh : hd.1 == gq
    · rw [if_pos hh] at h
      cases h
      by_cases hg : hd.1 == g
      · rw [if_pos hg]
        refine ⟨hd.2 ++ [u], ?_, Or.inr rfl⟩
        simp only []
        rw [if_pos hh]
      · rw [if_neg hg]
        refine ⟨hd.2, ?_, Or.inl rfl⟩
        rw [if_pos hh]
    · rw [if_neg hh] at h
      by_cases hg : hd.1 == g
      · rw [if_pos hg]
        rcases ih h with ⟨mq, hmq, hcase⟩
        refine ⟨mq, ?_, hcase⟩
        simp only []
        rw [if_neg hh]
        exact hmq
      · rw [if_neg hg]
        rcases ih h with ⟨mq, hmq, hcase⟩
        refine ⟨mq, ?_, hcase⟩
        rw [if_neg hh]
        exact hmq

theorem memberOf_of_findGroup : ∀ (u g : String) (gs : GroupDir) (m : List String),
    findGroup gs g = some m → memberOf u gs g = m.contains u := by
  intro u g gs m h
  unfold memberOf
  simp only [h]

theorem memberOf_true_elim : ∀ (u g : String) (gs : GroupDir),
    memberOf u gs g = true →
    ∃ m, findGroup gs g = some m ∧ m.contains u = true := by
  intro u g gs h
  unfold memberOf at h
  rcases hq : findGroup gs g with _ | m
  · rw [hq] at h; simp at h
  · rw [hq] at h; exact ⟨m, rfl, h⟩

theorem reconcileOneGroup_create : ∀ (u g : String) (gs : GroupDir),
    findGroup gs g = none → reconcileOneGroup u gs g = gs ++ [(g, [u])] := by
  intro u g gs h
  unfold reconcileOneGroup
  simp only [h]

theorem reconcileOneGroup_noop : ∀ (u g : String) (gs : GroupDir) (m : List String),
    findGroup gs g = some m → m.contains u = true → reconcileOneGroup u gs g = gs := by
  intro u g gs m h hc
  unfold reconcileOneGroup
  simp only [h, hc, if_true]

theorem reconcileOneGroup_extend : ∀ (u g : String) (gs : GroupDir) (m : List String),
    findGroup gs g = some m → m.contains u = false →
    reconcileOneGroup u gs g
      = gs.map (fun p => if p.1 == g then (p.1, p.2 ++ [u]) else p) := by
  intro u g gs m h hc
  unfold reconcileOneGroup
  simp only [h, hc]
  rw [if_neg]
  simp

theorem memberOf_mono_one : ∀ (u uq g gq : String) (gs : GroupDir),
    memberOf uq gs gq = true → memberOf uq (reconcileOneGroup u gs g) gq = true := by
  intro u uq g gq gs h
  rcases memberOf_true_elim uq gq gs h with ⟨m, hq, hc⟩
  rcases hg : findGroup gs g with _ | members
  · rw [reconcileOneGroup_create u g gs hg]
    rw [memberOf_of_findGroup uq gq _ m (findGroup_append_left gs [(g, [u])] gq m hq)]
    exact hc
  · by_cases hmem : members.contains u
    · rw [reconcileOneGroup_noop u g gs members hg hmem]
      rw [memberOf_of_findGroup uq gq gs m hq]
      exact hc
    · rw [reconcileOneGroup_extend u g gs members hg (by simpa using hmem)]
      rcases findGroup_upd_other gs g u gq m hq with ⟨mq, hmq, hcase⟩
      rw [memberOf_of_findGroup uq gq _ mq hmq]
      rcases hcase with hsame | hgrown
      · rw [hsame]; exact hc
      · rw [hgrown]
        simp only [List.contains, List.elem_eq_mem, decide_eq_true_eq] at hc ⊢
        exact List.mem_append_left _ hc

theorem memberOf_self_after_one : ∀ (u g : String) (gs : GroupDir),
    memberOf u (reconcileOneGroup u gs g) g = true := by
  intro u g gs
  rcases hg : findGroup gs g with _ | members
  · rw [reconcileOneGroup_create u g gs hg]
    have hfind : findGroup (gs ++ [(g, [u])]) g = some [u] := by
      rw [findGroup_append_right_none gs [(g, [u])] g hg, findGroup_cons]
      simp
    rw [memberOf_of_findGroup u g _ [u] hfind]
    simp
  · by_cases hmem : members.contains u
    · rw [reconcileOneGroup_noop u g gs members hg hmem]
      rw [memberOf_of_findGroup u g gs members hg]
      exact hmem
    · rw [reconcileOneGroup_extend u g gs members hg (by simpa using hmem)]
      rw [memberOf_of_findGroup u g _ (members ++ [u])
        (findGroup_upd_self gs g u members hg)]
      simp

theorem memberOf_mono : ∀ (names : List String) (u uq gq : String) (gs : GroupDir),
    memberOf uq gs gq = true → memberOf uq (reconcileGroups u gs names) gq = true := by
  intro names
  induction names with
  | nil => intro u uq gq gs h; exact h
  | cons n ns ih =>
    intro u uq gq gs h
    unfold reconcileGroups at *
    rw [List.foldl_cons]
    exact ih u uq gq _ (memberOf_mono_one u uq n gq gs h)

theorem memberOf_all_after : ∀ (names : List String) (u g : String) (gs : GroupDir),
    g ∈ names → memberOf u (reconcileGroups u gs names) g = true := by
  intro names
  induction names with
  | nil => intro u g gs h; simp at h
  | cons n ns ih =>
    intro u g gs h
    unfold reconcileGroups at *
    rw [List.foldl_cons]
    rcases List.mem_cons.mp h with heq | hmem
    · subst heq
      have h1 := memberOf_self_after_one u g gs
      have h2 := memberOf_mono ns u u g (reconcileOneGroup u gs g) h1
      unfold reconcileGroups at h2
      exact h2
    · exact ih u g _ hmem

theorem reconcile_noop_all : ∀ (names : List String) (u : String) (gs : GroupDir),
    (∀ g ∈ names, memberOf u gs g = true) → reconcileGroups u gs names = gs := by
  intro names
  induction names with
  | nil => intro u gs _; rfl
  | cons n ns ih =>
    intro u gs h
    have hn := h n (List.mem_cons_self n ns)
    rcases memberOf_true_elim u n gs hn with ⟨m, hm, hc⟩
    unfold reconcileGroups at *
    rw [List.foldl_cons, reconcileOneGroup_noop u n gs m hm hc]
    exact ih u gs (fun g hg => h g (List.mem_cons_of_mem n hg))

/-- C7: group reconciliation is union-only: a desired group missing from
the directory is created with the user as its sole member; a group
already listing the user is left untouched; no user ever loses a
membership (in any group, named or not) across a reconciliation run; and
running the same declared groups list twice gives the same state as
running it once, so memberships are never duplicated and never removed. -/
theorem C7_group_union :
    ∀ (u : String) (gs : GroupDir) (names : List String),
      (∀ g, findGroup gs g = none →
        findGroup (reconcileOneGroup u gs g) g = some [u])
      ∧ (∀ g m, findGroup gs g = some m → m.contains u = true →
        reconcileOneGroup u gs g = gs)
      ∧ (∀ gq uq, memberOf uq gs gq = true →
        memberOf uq (reconcileGroups u gs names) gq = true)
      ∧ reconcileGroups u (reconcileGroups u gs names) names
          = reconcileGroups u gs names := by
  intro u gs names
  refine ⟨fun g hnone => ?_, fun g m hsome hc => ?_, fun gq uq h => ?_, ?_⟩
  · rw [reconcileOneGroup_create u g gs hnone]
    rw [findGroup_append_right_none gs [(g, [u])] g hnone, findGroup_cons]
    simp
  · exact reconcileOneGroup_noop u g gs m hsome hc
  · exact memberOf_mono names u uq gq gs h
  · exact reconcile_noop_all names u (reconcileGroups u gs names)
      (fun g hg => memberOf_all_after names u g gs hg)

/-- Witness for C7 at a concrete state: creating a missing group with the
user as sole member, leaving an existing membership untouched, and
preserving an unrelated membership across a run. -/
theorem C7_witness :
    findGroup (reconcileOneGroup "uid=jd" [("g0", ["uid=jd", "uid=w"])] "g1") "g1"
        = some ["uid=jd"]
    ∧ reconcileOneGroup "uid=jd" [("g0", ["uid=jd", "uid=w"])] "g0"
        = [("g0", ["uid=jd", "uid=w"])]
    ∧ memberOf "uid=w" (reconcileGroups "uid=jd" [("g0", ["uid=jd", "uid=w"])] ["g1"]) "g0"
        = true :=
  ⟨(C7_group_union "uid=jd" [("g0", ["uid=jd", "uid=w"])] ["g1"]).1 "g1" (by decide),
   (C7_group_union "uid=jd" [("g0", ["uid=jd", "uid=w"])] ["g1"]).2.1 "g0"
     ["uid=jd", "uid=w"] (by decide) (by decide),
   (C7_group_union "uid=jd" [("g0", ["uid=jd", "uid=w"])] ["g1"]).2.2.1 "g0" "uid=w"
     (by decide)⟩

end HelxLdap

namespace HelxLdap

/-! ## Claim C5: bottom-up ordering of the change-record reader -/

theorem walkForest_split : ∀ (subs : List FsTree) (s : FsTree) (p : String),
    s ∈ subs →
    ∃ pre post, walkForest p subs = pre ++ walkBottomUp p s ++ post := by
  intro subs
  induction subs with
  | nil => intro s p h; simp at h
  | cons t ts ih =>
    intro s p h
    rcases List.mem_cons.mp h with heq | hmem
    · subst heq
      exact ⟨[], walkForest p ts, by simp [walkForest]⟩
    · rcases ih s p hmem with ⟨pre, post, hsplit⟩
      refine ⟨walkBottomUp p t ++ pre, post, ?_⟩
      rw [walkForest, hsplit]
      simp

/-- C5: the reader yields files of deeper directories before files of
their ancestors: for any root directory, every .ldif file contributed by
any subdirectory subtree appears in the emitted order before every .ldif
file of the root directory itself; in particular, for the tree a
containing b.ldif and subdirectory b containing c.ldif, a/b/c.ldif is
processed before a/b.ldif. -/
theorem C5_bottom_up_order :
    (∀ (p n : String) (fs : List String) (subs : List FsTree) (s : FsTree),
      s ∈ subs →
      ∃ l1, ldifFiles p (.dir n fs subs)
          = l1 ++ ldifFilesOfDir (joinPath p n, fs)
        ∧ ∀ f ∈ ldifFiles (joinPath p n) s, f ∈ l1)
    ∧ ldifFiles "" (.dir "a" ["b.ldif"] [.dir "b" ["c.ldif"] []])
        = ["a/b/c.ldif", "a/b.ldif"] := by
  constructor
  · intro p n fs subs s hs
    refine ⟨(walkForest (joinPath p n) subs).flatMap ldifFilesOfDir, ?_, ?_⟩
    · rw [ldifFiles, walkBottomUp]
      rw [List.flatMap_append]
      simp
    · intro f hf
      rcases walkForest_split subs s (joinPath p n) hs with ⟨pre, post, hsplit⟩
      rw [hsplit, List.flatMap_append, List.flatMap_append]
      rw [ldifFiles] at hf
      exact List.mem_append_left _ (List.mem_append_right _ hf)
  · simp only [ldifFiles, walkBottomUp, walkForest, ldifFilesOfDir, joinPath]
    decide

/-- Witness for C5: in the concrete two-level tree, the subtree files all
precede the root files in the emitted order. -/
theorem C5_witness :
    ∃ l1, ldifFiles "" (.dir "a" ["b.ldif"] [.dir "b" ["c.ldif"] []])
        = l1 ++ ldifFilesOfDir (joinPath "" "a", ["b.ldif"])
      ∧ ∀ f ∈ ldifFiles (joinPath "" "a") (.dir "b" ["c.ldif"] []), f ∈ l1 :=
  C5_bottom_up_order.1 "" "a" ["b.ldif"] [.dir "b" ["c.ldif"] []]
    (.dir "b" ["c.ldif"] []) (List.mem_singleton.mpr rfl)

end HelxLdap

namespace HelxLdap

/-! ## Claim C10: only the first value decides, uniformly applied -/

/-- C10: for a schema-targeted Add ModOp carrying a list of values, the
existence check consults only the head value, and the resulting decision
is applied to the whole value list: a downgrade emits one Replace
carrying every value, a skip drops every value, and a pass-through emits
one Add carrying every value. -/
theorem C10_first_value_decides :
    ∀ (checkA checkO : String → Bool) (upd : Bool) (a v : String)
      (rest : List String), a ≠ "add" →
      ((schemaExists checkA checkO a v = true → upd = true →
        processModifyModlist checkA checkO "cn=schema,cn=config"
          [("add", [a]), (a, v :: rest)] upd = some [⟨.modReplace, a, v :: rest⟩])
      ∧ (schemaExists checkA checkO a v = true → upd = false →
        processModifyModlist checkA checkO "cn=schema,cn=config"
          [("add", [a]), (a, v :: rest)] upd = some [])
      ∧ (schemaExists checkA checkO a v = false →
        processModifyModlist checkA checkO "cn=schema,cn=config"
          [("add", [a]), (a, v :: rest)] upd
            = some [⟨.modAdd, a, v :: rest⟩])) := by
  intro checkA checkO upd a v rest h
  have hba : (("add" : String) == a) = false := beq_eq_false_iff_ne.mpr (Ne.symm h)
  have hkeys : entryKeys [("add", [a]), (a, v :: rest)] = ["add", a] := rfl
  have hget1 : getAttr [("add", [a]), (a, v :: rest)] "add" = [a] := rfl
  have hget2 : getAttr [("add", [a]), (a, v :: rest)] a = v :: rest := by
    unfold getAttr
    simp [List.find?_cons, hba]
  refine ⟨fun hex hupd => ?_, fun hex hupd => ?_, fun hex => ?_⟩
  · subst hupd
    unfold processModifyModlist
    rw [hkeys]
    simp [scanKeys, dispatchOuter, hget1, hget2, hex]
  · subst hupd
    unfold processModifyModlist
    rw [hkeys]
    simp [scanKeys, dispatchOuter, hget1, hget2, hex]
  · unfold processModifyModlist
    rw [hkeys]
    simp [scanKeys, dispatchOuter, hget1, hget2, hex, toLdapMod]

/-- Witness for C10: with two values whose head is a known-existing
definition, update mode emits one Replace carrying both values. -/
theorem C10_witness :
    processModifyModlist (fun d => d == "defA") (fun _ => false)
      "cn=schema,cn=config"
      [("add", ["olcAttributeTypes"]), ("olcAttributeTypes", ["defA", "defB"])] true
      = some [⟨.modReplace, "olcAttributeTypes", ["defA", "defB"]⟩] :=
  (C10_first_value_decides (fun d => d == "defA") (fun _ => false) true
    "olcAttributeTypes" "defA" ["defB"] (by decide)).1 (by decide) rfl

end HelxLdap

namespace HelxLdap

/-! ## Claim C1: schema add reconciliation -/

theorem getAttr_map_self : ∀ (attrs : List String) (vals : String → List String)
    (a : String), a ∈ attrs →
    getAttr (attrs.map (fun x => (x, vals x))) a = vals a := by
  intro attrs vals a
  induction attrs with
  | nil => intro h; simp at h
  | cons b bs ih =>
    intro h
    rw [List.map_cons]
    by_cases hba : b == a
    · have hb : b = a := eq_of_beq hba
      subst hb
      unfold getAttr
      simp [List.find?_cons]
    · unfold getAttr
      simp only [List.find?_cons, hba]
      have hmem : a ∈ bs := by
        rcases List.mem_cons.mp h with heq | hm
        · exact absurd (beq_iff_eq.mpr heq.symm) hba
        · exact hm
      have := ih hmem
      unfold getAttr at this
      exact this

/-- The inner loop of process_modify on one add-operation block whose
attribute keys line up with the pending attribute list: it computes
exactly the amended per-block specification, in both the
still-in-add-mode state and the already-downgraded state. -/
theorem scan_block_spec :
    ∀ (checkA checkO : String → Bool) (entry : Entry) (upd : Bool)
      (vals : String → List String) (attrs : List String),
      (∀ a ∈ attrs, getAttr entry a = vals a ∧ vals a ≠ []) →
      (scanKeys checkA checkO "cn=schema,cn=config" entry upd
          (some ("replace", attrs)) attrs
        = some (amendedBlockSpec checkA checkO upd vals true attrs))
      ∧ (scanKeys checkA checkO "cn=schema,cn=config" entry upd
          (some ("add", attrs)) attrs
        = some (amendedBlockSpec checkA checkO upd vals false attrs)) := by
  intro checkA checkO entry upd vals attrs
  induction attrs with
  | nil =>
    intro h
    constructor <;> simp [scanKeys, amendedBlockSpec]
  | cons a as ih =>
    intro h
    have hga : getAttr entry a = vals a := (h a (List.mem_cons_self a as)).1
    have hne : vals a ≠ [] := (h a (List.mem_cons_self a as)).2
    have htail : ∀ x ∈ as, getAttr entry x = vals x ∧ vals x ≠ [] :=
      fun x hx => h x (List.mem_cons_of_mem a hx)
    rcases hv : vals a with _ | ⟨d, t⟩
    · exact absurd hv hne
    have hrecT := (ih htail).1
    have hrecF := (ih htail).2
    have hhead : (vals a).headD "" = d := by rw [hv]; rfl
    constructor
    · simp [scanKeys, amendedBlockSpec, hga, hv, hrecT, toLdapMod]
    · by_cases hex : schemaExists checkA checkO a d
      · cases upd
        · simp [scanKeys, amendedBlockSpec, hga, hv, hhead, hex, hrecF]
        · simp [scanKeys, amendedBlockSpec, hga, hv, hhead, hex, hrecT]
      · simp [scanKeys, amendedBlockSpec, hga, hv, hhead, hex, hrecF, toLdapMod]

/-- With update mode disabled, a scan in which every opened block is an
add block over already-existing schema definitions emits nothing. -/
theorem scan_zero :
    ∀ (checkA checkO : String → Bool) (entry : Entry),
      (∀ a ∈ getAttr entry "add",
        getAttr entry a ≠ []
        ∧ schemaExists checkA checkO a ((getAttr entry a).headD "") = true) →
      ∀ (keys : List String) (st : Option (String × List String)),
        (∀ k ∈ keys, k ≠ "delete" ∧ k ≠ "replace") →
        (st = none ∨ ∃ s, st = some ("add", s) ∧ ∀ a ∈ s, a ∈ getAttr entry "add") →
        scanKeys checkA checkO "cn=schema,cn=config" entry false st keys = some [] := by
  intro checkA checkO entry hschema keys
  induction keys with
  | nil =>
    intro st hkeys hinv
    rcases hinv with hn | ⟨s, hs, _⟩ <;> subst_vars <;> simp [scanKeys]
  | cons k ks ih =>
    intro st hkeys hinv
    have hk := hkeys k (List.mem_cons_self k ks)
    have htailkeys : ∀ x ∈ ks, x ≠ "delete" ∧ x ≠ "replace" :=
      fun x hx => hkeys x (List.mem_cons_of_mem k hx)
    have hkd : (k == "delete") = false := beq_eq_false_iff_ne.mpr hk.1
    have hkr : (k == "replace") = false := beq_eq_false_iff_ne.mpr hk.2
    have hdisp : dispatchOuter entry k
        = if k == "add" then some ("add", getAttr entry "add") else none := by
      unfold dispatchOuter
      rw [hkd, hkr]
      by_cases hka : k == "add"
      · have hkeq : k = "add" := eq_of_beq hka
        subst hkeq
        simp
      · simp [hka]
    have hdispinv : (dispatchOuter entry k) = none
        ∨ ∃ s, (dispatchOuter entry k) = some ("add", s)
            ∧ ∀ a ∈ s, a ∈ getAttr entry "add" := by
      rw [hdisp]
      by_cases hka : k == "add"
      · rw [if_pos hka]
        exact Or.inr ⟨getAttr entry "add", rfl, fun a ha => ha⟩
      · rw [if_neg hka]
        exact Or.inl rfl
    rcases hinv with hn | ⟨s, hs, hsub⟩
    · subst hn
      rw [scanKeys]
      exact ih _ htailkeys hdispinv
    · subst hs
      rcases s with _ | ⟨a, as⟩
      · rw [scanKeys]
        exact ih _ htailkeys hdispinv
      · by_cases hka : k == a
        · have hkaeq : k = a := eq_of_beq hka
          subst hkaeq
          have hmem : k ∈ getAttr entry "add" := hsub k (List.mem_cons_self k as)
          have hne := (hschema k hmem).1
          have hex := (hschema k hmem).2
          rcases hv : getAttr entry k with _ | ⟨d, t⟩
          · exact absurd hv hne
          have hexd : schemaExists checkA checkO k d = true := by
            rw [hv] at hex
            exact hex
          have hrec := ih (some ("add", as)) htailkeys
            (Or.inr ⟨as, rfl, fun x hx => hsub x (List.mem_cons_of_mem k hx)⟩)
          simp [scanKeys, hv, hexd, hrec]
        · rw [scanKeys]
          rw [if_neg (by simpa using hka)]
          exact ih _ htailkeys hdispinv

/-- C1 counterexample: in one add block naming olcAttributeTypes (whose
definition exists) and olcObjectClasses (whose definition does not
exist), update mode emits Replace for both ModOps: the downgrade of the
first ModOp persists in the mutable mod_op variable, so the second Add
ModOp, although its identifier does not exist, is not emitted as an
unchanged Add. -/
theorem C1_counterexample :
    processModifyModlist (fun d => d == "defA") (fun _ => false)
      "cn=schema,cn=config"
      [("add", ["olcAttributeTypes", "olcObjectClasses"]),
       ("olcAttributeTypes", ["defA"]),
       ("olcObjectClasses", ["defB"])] true
      = some [⟨.modReplace, "olcAttributeTypes", ["defA"]⟩,
              ⟨.modReplace, "olcObjectClasses", ["defB"]⟩]
    ∧ schemaExists (fun d => d == "defA") (fun _ => false)
        "olcObjectClasses" "defB" = false := by
  exact ⟨by decide, by decide⟩

/-- C1 (amended): for a Modify record against the schema container made
of one add block, each Add ModOp whose identifier exists is downgraded to
a Replace with the same attribute and values in update mode, or skipped
entirely outside update mode, and a ModOp whose identifier does not
exist is emitted as an unchanged Add — except that after the first
downgrade in the block, the remaining ModOps of that block are emitted as
Replace without an existence check; and re-applying any schema-add record
whose definitions all exist with update mode disabled issues no
operation at all. -/
theorem C1_schema_add_amended :
    ∀ (checkA checkO : String → Bool),
      (∀ (upd : Bool) (vals : String → List String) (attrs : List String),
        "add" ∉ attrs → (∀ a ∈ attrs, vals a ≠ []) →
        processModifyModlist checkA checkO "cn=schema,cn=config"
          (("add", attrs) :: attrs.map (fun a => (a, vals a))) upd
        = some (amendedBlockSpec checkA checkO upd vals false attrs))
      ∧ (∀ entry : Entry,
        (∀ k ∈ entryKeys entry, k ≠ "delete" ∧ k ≠ "replace") →
        (∀ a ∈ getAttr entry "add",
          getAttr entry a ≠ []
          ∧ schemaExists checkA checkO a ((getAttr entry a).headD "") = true) →
        processModifyChanges checkA checkO "cn=schema,cn=config" entry false
          = some []) := by
  intro checkA checkO
  constructor
  · intro upd vals attrs hadd hvne
    have hkeys : entryKeys (("add", attrs) :: attrs.map (fun a => (a, vals a)))
        = "add" :: attrs := by
      unfold entryKeys
      rw [List.map_cons, List.map_map]
      have hid : (Prod.fst ∘ fun a => (a, vals a)) = id := rfl
      rw [hid, List.map_id]
    have hget1 : getAttr (("add", attrs) :: attrs.map (fun a => (a, vals a))) "add"
        = attrs := by
      unfold getAttr
      simp [List.find?_cons]
    have hgeta : ∀ a ∈ attrs,
        getAttr (("add", attrs) :: attrs.map (fun x => (x, vals x))) a = vals a
        ∧ vals a ≠ [] := by
      intro a ha
      have hna : a ≠ "add" := fun hcon => hadd (hcon ▸ ha)
      have hba : (("add" : String) == a) = false := beq_eq_false_iff_ne.mpr
        (Ne.symm hna)
      constructor
      · unfold getAttr
        simp only [List.find?_cons, hba]
        have := getAttr_map_self attrs vals a ha
        unfold getAttr at this
        exact this
      · exact hvne a ha
    unfold processModifyModlist
    rw [hkeys, scanKeys]
    have hdisp : dispatchOuter (("add", attrs) :: attrs.map (fun a => (a, vals a)))
        "add" = some ("add", attrs) := by
      unfold dispatchOuter
      simp [hget1]
    rw [hdisp]
    exact (scan_block_spec checkA checkO _ upd vals attrs hgeta).2
  · intro entry hdel hschema
    have hml : processModifyModlist checkA checkO "cn=schema,cn=config" entry false
        = some [] := by
      unfold processModifyModlist
      exact scan_zero checkA checkO entry hschema (entryKeys entry) none hdel
        (Or.inl rfl)
    unfold processModifyChanges
    rw [hml]
    rfl

/-- Witness for C1 at concrete records: a one-definition add block
computes the per-block specification, and a record whose single
definition already exists issues nothing with update mode off. -/
theorem C1_witness :
    processModifyModlist (fun _ => true) (fun _ => false) "cn=schema,cn=config"
      [("add", ["olcAttributeTypes"]), ("olcAttributeTypes", ["d1"])] false
      = some (amendedBlockSpec (fun _ => true) (fun _ => false) false
          (fun _ => ["d1"]) false ["olcAttributeTypes"])
    ∧ processModifyChanges (fun _ => true) (fun _ => false) "cn=schema,cn=config"
      [("add", ["olcAttributeTypes"]), ("olcAttributeTypes", ["d1"])] false
      = some [] :=
  ⟨(C1_schema_add_amended (fun _ => true) (fun _ => false)).1 false
      (fun _ => ["d1"]) ["olcAttributeTypes"] (by decide)
      (fun a ha => by simp),
   (C1_schema_add_amended (fun _ => true) (fun _ => false)).2
      [("add", ["olcAttributeTypes"]), ("olcAttributeTypes", ["d1"])]
      (by decide) (by decide)⟩

end HelxLdap
